import Mathlib

/-!
Verification of the streaming speech-delivery pipeline of the
`The-top-student-in-high-school` repository.

The development shallowly embeds the pieces of the pipeline that the
specification talks about:

* the text segmenter of `handleSpeak` (sentence-splitting regex followed by
  greedy 200-character packing);
* the gapless audio scheduler `scheduleChunk` (decoding, start-time
  computation, timeline cursor advance, handle registration);
* cancellation via `stopAudio`, the speak/stop toggle guard, the frame-drop
  guard and the sequential chunk loop of `handleSpeak`;
* the retry/rotation logic of `generateStreamResponse` and `streamSpeech`
  in `services/geminiService.ts`.

Strings are modelled as `List Char`; machine floating-point times and
durations are modelled as rationals; the credential pool rotation
(`utils/apiKeyManager`, not among the provided sources) is modelled from the
specification.
-/

namespace TtsPipeline

/-! ## Text segmentation (`handleSpeak`, lines 110-127)

The sentence splitter is the JS call

  cleanText.match(/[^.!?؟:\n]+[.!?؟:\n]+|[^.!?؟:\n]+$/g) || [cleanText]

Scanning semantics of this regex with the global flag: at a position holding
a non-delimiter character, the match takes the maximal run of non-delimiter
characters together with the following maximal run of delimiter characters
(or up to the end of the input when no delimiter follows); at a position
holding a delimiter character nothing matches and the scanner advances one
character, which silently discards that character.  `tokenize` is that
scanner; `sentencesOf` adds the `|| [cleanText]` fallback for a null match
result. -/

/-- The delimiter class `[.!?؟:\n]` of the sentence-splitting regex. -/
def isDelim (c : Char) : Bool :=
  c = '.' || c = '!' || c = '?' || c = '؟' || c = ':' || c = '\n'

/-- One pass of the global regex scanner (see the section comment). -/
def tokenize : List Char → List (List Char)
  | [] => []
  | c :: cs =>
    if isDelim c then
      tokenize cs
    else
      let body := c :: cs.takeWhile (fun x => !isDelim x)
      let rest := cs.dropWhile (fun x => !isDelim x)
      (body ++ rest.takeWhile isDelim) :: tokenize (rest.dropWhile isDelim)
termination_by l => l.length
decreasing_by
  · simp only [List.length_cons]; omega
  · have h1 : ((cs.dropWhile (fun x => !isDelim x)).dropWhile isDelim).length ≤
        (cs.dropWhile (fun x => !isDelim x)).length :=
      (List.dropWhile_sublist isDelim).length_le
    have h2 : (cs.dropWhile (fun x => !isDelim x)).length ≤ cs.length :=
      (List.dropWhile_sublist _).length_le
    simp only [List.length_cons]
    omega

/-- `cleanText.match(...) || [cleanText]`: a null match result (no token at
all) falls back to the whole text as a single sentence. -/
def sentencesOf (T : List Char) : List (List Char) :=
  match tokenize T with
  | [] => [T]
  | ts => ts

/-- The greedy packing loop of `handleSpeak` (lines 116-127): `temp` is
`tempChunk`; a sentence that would push the accumulator past `maxLen`
closes the current chunk (even when the accumulator is still empty) and
starts a new one; the trailing accumulator is pushed only when non-empty
(`if (tempChunk) chunks.push(tempChunk)`). -/
def packLoop (maxLen : Nat) : List (List Char) → List Char → List (List Char)
  | [], temp => if temp.isEmpty then [] else [temp]
  | s :: rest, temp =>
    if temp.length + s.length > maxLen then
      temp :: packLoop maxLen rest s
    else
      packLoop maxLen rest (temp ++ s)

/-- The full segmenter of `handleSpeak`: sentence split then greedy packing
with the 200-character bound. -/
def segment (T : List Char) : List (List Char) :=
  packLoop 200 (sentencesOf T) []

/-! ### Segmentation lemmas -/

theorem dropWhile_dropWhile_self (p : α → Bool) (l : List α) :
    (l.dropWhile p).dropWhile p = l.dropWhile p := by
  induction l with
  | nil => rfl
  | cons a l ih =>
    by_cases h : p a
    · simp [List.dropWhile_cons_of_pos h, ih]
    · simp [List.dropWhile_cons_of_neg h, h]

theorem tokenize_join (l : List Char) :
    (tokenize l).flatten = l.dropWhile isDelim := by
  induction l using tokenize.induct with
  | case1 => simp [tokenize]
  | case2 c cs h ih =>
    rw [tokenize]
    simp only [if_pos h]
    rw [ih, List.dropWhile_cons_of_pos h]
  | case3 c cs h rest ih =>
    rw [tokenize]
    simp only [if_neg h]
    rw [List.flatten_cons]
    rw [dropWhile_dropWhile_self] at ih
    rw [ih]
    rw [List.dropWhile_cons_of_neg h]
    simp only [List.cons_append, List.append_assoc, List.takeWhile_append_dropWhile]

theorem tokenize_eq_nil_iff (l : List Char) :
    tokenize l = [] ↔ l.dropWhile isDelim = [] := by
  induction l using tokenize.induct with
  | case1 => simp [tokenize]
  | case2 c cs h ih =>
    rw [tokenize]
    simp only [if_pos h]
    rw [ih, List.dropWhile_cons_of_pos h]
  | case3 c cs h ih =>
    rw [tokenize]
    simp only [if_neg h]
    simp [List.dropWhile_cons_of_neg h]

theorem packLoop_join (maxLen : Nat) (ss : List (List Char)) :
    ∀ temp : List Char, (packLoop maxLen ss temp).flatten = temp ++ ss.flatten := by
  induction ss with
  | nil =>
    intro temp
    rw [packLoop]
    by_cases h : temp.isEmpty
    · rw [if_pos h]
      rw [List.isEmpty_iff] at h
      simp [h]
    · rw [if_neg h]
      simp
  | cons s rest ih =>
    intro temp
    rw [packLoop]
    by_cases h : temp.length + s.length > maxLen
    · rw [if_pos h, List.flatten_cons, ih s, List.flatten_cons]
    · rw [if_neg h, ih (temp ++ s), List.flatten_cons, List.append_assoc]

theorem segment_join (T : List Char) :
    (tokenize T ≠ [] ∧ (segment T).flatten = T.dropWhile isDelim) ∨
      (tokenize T = [] ∧ (segment T).flatten = T) := by
  cases h : tokenize T with
  | nil =>
    right
    refine ⟨rfl, ?_⟩
    have hs : sentencesOf T = [T] := by unfold sentencesOf; rw [h]
    unfold segment
    rw [hs, packLoop_join]
    simp
  | cons t ts =>
    left
    refine ⟨by simp [h], ?_⟩
    have hs : sentencesOf T = t :: ts := by unfold sentencesOf; rw [h]
    unfold segment
    rw [hs, packLoop_join, List.nil_append, ← h, tokenize_join]

/-! ### Concrete evaluation helpers for the segmenter -/

theorem tokenize_nil : tokenize [] = [] := by rw [tokenize]

theorem tokenize_cons_delim {c : Char} (cs : List Char) (h : isDelim c = true) :
    tokenize (c :: cs) = tokenize cs := by
  rw [tokenize]; simp [h]

theorem tokenize_all_nondelim (l : List Char) (hne : l ≠ [])
    (h : ∀ c ∈ l, isDelim c = false) : tokenize l = [l] := by
  cases l with
  | nil => exact absurd rfl hne
  | cons c cs =>
    rw [tokenize]
    have hc : isDelim c = false := h c (List.mem_cons_self c cs)
    simp only [hc, Bool.false_eq_true, if_false]
    have ht : cs.takeWhile (fun x => !isDelim x) = cs :=
      List.takeWhile_eq_self_iff.mpr (fun a ha => by simp [h a (List.mem_cons_of_mem c ha)])
    have hd : cs.dropWhile (fun x => !isDelim x) = [] :=
      List.dropWhile_eq_nil_iff.mpr (fun a ha => by simp [h a (List.mem_cons_of_mem c ha)])
    rw [ht, hd]
    simp [tokenize_nil]

/-! ## Session state and cancellation (`MessageBubble`, lines 17-25, 52-81,
129-142)

`CompState` collects the component's audio-session state: the two React
state booleans (`isSpeaking`, `isLoadingAudio`), the loop flag
`isSpeakingRef`, the active-handle collection `sourcesRef` (handles are
identifiers), and the timeline cursor `nextStartTimeRef`.  React state
setters are modelled as synchronous field updates. -/

structure CompState where
  isSpeaking : Bool
  isLoadingAudio : Bool
  isSpeakingRef : Bool
  sources : List Nat
  nextStartTime : ℚ
deriving DecidableEq

/-- `stopAudio` (lines 52-66): clears the loop flag, calls `.stop()` on every
active source (the second component lists the handles that received the
call), empties `sourcesRef`, clears both UI booleans and resets the timeline
cursor to `0`. -/
def stopAudio (s : CompState) : CompState × List Nat :=
  ({ isSpeaking := false, isLoadingAudio := false, isSpeakingRef := false,
     sources := [], nextStartTime := 0 }, s.sources)

/-- The outcome of the guard at the top of `handleSpeak`. -/
inductive SpeakAction
  | stop
  | noop
  | proceed
deriving DecidableEq

/-- `handleSpeak` entry guard (lines 68-74): `if (isSpeaking) { stopAudio();
return; } if (isLoadingAudio) return;`. -/
def handleSpeakEntry (s : CompState) : SpeakAction :=
  if s.isSpeaking then SpeakAction.stop
  else if s.isLoadingAudio then SpeakAction.noop
  else SpeakAction.proceed

/-- Lines 79-81 of `handleSpeak`: entering the loading phase sets
`isLoadingAudio`, `isSpeaking` and the loop flag all to `true`. -/
def beginLoading (s : CompState) : CompState :=
  { s with isLoadingAudio := true, isSpeaking := true, isSpeakingRef := true }

/-- The frame callback passed to `streamSpeech` (lines 134-141): a frame
arriving while the loop flag is cleared is dropped before reaching
`scheduleChunk`; otherwise the loading spinner is cleared and the frame is
forwarded (second component). -/
def onFrame (s : CompState) (base64 : List Char) : CompState × Option (List Char) :=
  if s.isSpeakingRef then ({ s with isLoadingAudio := false }, some base64)
  else (s, none)

/-- The chunk loop of `handleSpeak` (lines 129-142): before issuing the
request for the chunk at position `k`, the loop reads `isSpeakingRef`
(modelled by `flag k`, the value the flag has at that resumption point) and
breaks when it is cleared; the result lists the chunks for which a
`streamSpeech` request is issued, in order. -/
def issuedRequests (flag : Nat → Bool) : List (List Char) → Nat → List (List Char)
  | [], _ => []
  | c :: rest, k => if flag k then c :: issuedRequests flag rest (k + 1) else []

/-- The requests `handleSpeak` issues as a function of its entry guard: the
stop branch and the no-op branch return before any network call. -/
def handleSpeakRequests (s : CompState) (chunks : List (List Char))
    (flag : Nat → Bool) : List (List Char) :=
  match handleSpeakEntry s with
  | SpeakAction.stop => []
  | SpeakAction.noop => []
  | SpeakAction.proceed => issuedRequests flag chunks 0

theorem issuedRequests_all_true (chunks : List (List Char)) :
    ∀ k, issuedRequests (fun _ => true) chunks k = chunks := by
  induction chunks with
  | nil => intro k; rfl
  | cons c rest ih => intro k; rw [issuedRequests, if_pos rfl, ih]

theorem issuedRequests_of_false (flag : Nat → Bool) (hf : ∀ k, flag k = false)
    (chunks : List (List Char)) : ∀ k, issuedRequests flag chunks k = [] := by
  cases chunks with
  | nil => intro k; rfl
  | cons c rest => intro k; rw [issuedRequests, hf k]; rfl

/-! ## Gapless scheduling (`scheduleChunk`, lines 185-188)

`scheduleTimes` is the timing core of `scheduleChunk`: given the timeline
cursor `nextStartTimeRef` and, for each successfully decoded chunk, the pair
(audio-clock reading `ctx.currentTime` at the moment of scheduling, buffer
duration), it returns each buffer's `startTime = max(ctx.currentTime,
nextStartTimeRef.current)` together with its duration, advancing the cursor
by `startTime + buffer.duration`. -/

def scheduleTimes (next : ℚ) : List (ℚ × ℚ) → List (ℚ × ℚ)
  | [] => []
  | (now, dur) :: rest =>
    (max now next, dur) :: scheduleTimes (max now next + dur) rest

theorem scheduleTimes_head_ge (next : ℚ) (l : List (ℚ × ℚ)) :
    ∀ p ∈ (scheduleTimes next l).head?, next ≤ p.1 := by
  cases l with
  | nil => intro p hp; simp [scheduleTimes] at hp
  | cons a rest =>
    intro p hp
    obtain ⟨now, dur⟩ := a
    simp only [scheduleTimes, List.head?_cons, Option.mem_def, Option.some.injEq] at hp
    rw [← hp]
    exact le_max_right now next

theorem scheduleTimes_chain (l : List (ℚ × ℚ)) :
    ∀ next : ℚ, List.Chain' (fun p q : ℚ × ℚ => p.1 + p.2 ≤ q.1)
      (scheduleTimes next l) := by
  induction l with
  | nil => intro next; simp [scheduleTimes]
  | cons a rest ih =>
    intro next
    obtain ⟨now, dur⟩ := a
    rw [scheduleTimes]
    refine List.chain'_cons'.mpr ⟨?_, ih (max now next + dur)⟩
    intro q hq
    exact scheduleTimes_head_ge (max now next + dur) rest q hq

theorem scheduleTimes_ge_clock (l : List (ℚ × ℚ)) :
    ∀ next : ℚ, List.Forall₂ (fun inp out : ℚ × ℚ => inp.1 ≤ out.1)
      l (scheduleTimes next l) := by
  induction l with
  | nil => intro next; exact List.Forall₂.nil
  | cons a rest ih =>
    intro next
    obtain ⟨now, dur⟩ := a
    rw [scheduleTimes]
    exact List.Forall₂.cons (le_max_left now next) (ih (max now next + dur))

/-! ## Audio decoding and chunk scheduling (`scheduleChunk`, lines 160-211)

The decoding chain of `scheduleChunk` is `atob` (the browser's forgiving
base64 decoder) followed by reinterpreting the byte buffer as 16-bit signed
little-endian PCM (`new Int16Array(bytes.buffer)`, which throws a RangeError
on an odd byte count) and normalising each sample by dividing by 32768.
Every decoding error is caught by the surrounding try/catch, which logs and
returns `null`; all state mutations (`nextStartTimeRef`, `sourcesRef.push`)
sit after the decoding steps inside the try block. -/

/-- ASCII whitespace removed by forgiving-base64 decoding. -/
def isB64Whitespace (c : Char) : Bool :=
  c = ' ' || c = '\t' || c = '\n' || c = '\x0C' || c = '\r'

/-- Value of one base64 alphabet character. -/
def b64Val (c : Char) : Option Nat :=
  if 'A' ≤ c && c ≤ 'Z' then some (c.toNat - 65)
  else if 'a' ≤ c && c ≤ 'z' then some (c.toNat - 97 + 26)
  else if '0' ≤ c && c ≤ '9' then some (c.toNat - 48 + 52)
  else if c = '+' then some 62
  else if c = '/' then some 63
  else none

/-- Decode a sextet sequence: each full group of four sextets yields three
bytes; a final group of three yields two bytes, of two yields one byte, of
one is impossible after the length check (treated as an error). -/
def b64Groups : List Nat → Option (List Nat)
  | [] => some []
  | [_] => none
  | [a, b] => some [a * 4 + b / 16]
  | [a, b, c] => some [a * 4 + b / 16, b % 16 * 16 + c / 4]
  | a :: b :: c :: d :: rest => do
      let tail ← b64Groups rest
      some ((a * 4 + b / 16) :: (b % 16 * 16 + c / 4) :: (c % 4 * 64 + d) :: tail)

/-- Remove up to two trailing padding characters. -/
def dropTrailingPad (l : List Char) : List Char :=
  match l.reverse with
  | '=' :: '=' :: r => r.reverse
  | '=' :: r => r.reverse
  | _ => l

/-- Browser `atob` (forgiving-base64): strip ASCII whitespace; when the
remaining length is a multiple of four, strip up to two trailing `=`; fail
when the length is congruent to 1 mod 4 or any character is outside the
base64 alphabet. -/
def atob (s : List Char) : Option (List Nat) :=
  let data := s.filter (fun c => !isB64Whitespace c)
  let data := if data.length % 4 = 0 then dropTrailingPad data else data
  if data.length % 4 = 1 then none
  else do
    let sextets ← data.mapM b64Val
    b64Groups sextets

/-- One little-endian byte pair as a signed 16-bit sample. -/
def int16OfPair (lo hi : Nat) : Int :=
  if lo + 256 * hi < 32768 then (lo + 256 * hi : Int)
  else (lo + 256 * hi : Int) - 65536

/-- `new Int16Array(bytes.buffer)`: pairs of bytes, little endian; an odd
byte count throws a RangeError. -/
def bytesToInt16 : List Nat → Option (List Int)
  | [] => some []
  | [_] => none
  | lo :: hi :: rest => do
      let tail ← bytesToInt16 rest
      some (int16OfPair lo hi :: tail)

/-- The full decoding chain of `scheduleChunk` (lines 165-176): base64 text
to normalised sample amplitudes (`float32[i] = int16[i] / 32768`); `none`
models a thrown decoding error. -/
def decodePayload (s : List Char) : Option (List ℚ) := do
  let bytes ← atob s
  let ints ← bytesToInt16 bytes
  some (ints.map (fun i => (i : ℚ) / 32768))

/-- The state `scheduleChunk` touches: the timeline cursor and the
active-handle collection. -/
structure SchedState where
  nextStartTime : ℚ
  sources : List Nat
deriving DecidableEq

/-- `scheduleChunk` (lines 160-211) at the state level: a payload that fails
to decode is caught and yields `null` with the state untouched; a decoded
payload of `n` samples becomes a buffer of duration `n / 24000` seconds,
starts at `max(ctx.currentTime, nextStartTimeRef.current)`, advances the
cursor and appends the new handle to `sourcesRef`. -/
def scheduleChunk (st : SchedState) (now : ℚ) (payload : List Char)
    (handleId : Nat) : SchedState × Option Nat :=
  match decodePayload payload with
  | none => (st, none)
  | some samples =>
    let dur : ℚ := samples.length / 24000
    let start := max now st.nextStartTime
    ({ nextStartTime := start + dur, sources := st.sources ++ [handleId] },
      some handleId)

/-- A sequence of `scheduleChunk` calls threading the scheduler state. -/
def runScheduler (st : SchedState) : List (ℚ × List Char × Nat) → SchedState
  | [] => st
  | (now, payload, handleId) :: rest =>
    runScheduler (scheduleChunk st now payload handleId).1 rest

/-! ## Credential pool and retry logic (`services/geminiService.ts`)

`getApiKey`/`rotateApiKey` live in `utils/apiKeyManager`, which is not among
the provided sources; the pool is therefore modelled from the
specification's §4.1 contract.  The retry logic of
`generateStreamResponse` and `streamSpeech` is translated from
`geminiService.ts` itself. -/

/-- Modelled from the spec: `utils/apiKeyManager` is missing from the
sources.  §4.1 describes the credential pool as an ordered sequence of
credential tokens with a cursor that only ever advances. -/
structure CredentialPool where
  keys : List String
  cursor : Nat
deriving DecidableEq

/-- Modelled from the spec: `rotate()` advances the cursor by one, never
wraps around, and returns whether a valid next credential exists. -/
def rotateApiKey (p : CredentialPool) : CredentialPool × Bool :=
  ({ p with cursor := p.cursor + 1 }, decide (p.cursor + 1 < p.keys.length))

/-- Observable events of one `generateStreamResponse`/`streamSpeech` call:
issuing the network attempt with a given `retryCount`, and a rotation
returning whether a credential remains. -/
inductive PoolEvent
  | attempt (idx : Nat)
  | rotate (ok : Bool)
deriving DecidableEq

/-- Outcome of a single streaming-TTS attempt, as seen at the network
boundary: success after delivering `frames`, or a thrown transport error
after delivering `frames` (possibly none). -/
inductive TtsAttempt
  | ok (frames : List (List Char))
  | err (frames : List (List Char))

/-- Outcome of a single full-response generation attempt. -/
inductive GenAttempt
  | ok (text : String)
  | err

/-- Result of one `streamSpeech` call: every frame handed to `onAudioChunk`
(in order, across all attempts), the event trace, and the final pool. -/
structure SSOutcome where
  frames : List (List Char)
  trace : List PoolEvent
  pool : CredentialPool

/-- `streamSpeech` (geminiService.ts, lines 192-222).  The attempt outcome
oracle maps the `retryCount` of an attempt to what the network does on that
attempt.  The catch block runs `if (retryCount < 3 && rotateApiKey())`:
below the ceiling it rotates, and only when a credential remains does it
start the same chunk again from scratch with `retryCount + 1`. -/
def streamSpeechRun (oracle : Nat → TtsAttempt) (pool : CredentialPool)
    (rc : Nat) : SSOutcome :=
  match oracle rc with
  | TtsAttempt.ok fs => ⟨fs, [PoolEvent.attempt rc], pool⟩
  | TtsAttempt.err fs =>
    if _h : rc < 3 then
      if (rotateApiKey pool).2 then
        let rest := streamSpeechRun oracle (rotateApiKey pool).1 (rc + 1)
        ⟨fs ++ rest.frames,
          PoolEvent.attempt rc :: PoolEvent.rotate true :: rest.trace,
          rest.pool⟩
      else
        ⟨fs, [PoolEvent.attempt rc, PoolEvent.rotate false], (rotateApiKey pool).1⟩
    else ⟨fs, [PoolEvent.attempt rc], pool⟩
termination_by 3 - rc
decreasing_by omega

/-- The fixed message `generateStreamResponse` resolves with when the pool
is exhausted or the ceiling is reached (geminiService.ts, line 161). -/
def apologyMessage : String :=
  "عذراً، الخدمة مشغولة جداً حالياً (نفذ رصيد المفاتيح). يرجى المحاولة لاحقاً أو التواصل مع الدعم."

/-- Result of one `generateStreamResponse` call. -/
structure GSOutcome where
  result : String
  trace : List PoolEvent
  pool : CredentialPool

/-- `generateStreamResponse` (geminiService.ts, lines 40-163), failure
handling only: on a caught error with `retryCount < 4` it rotates, and when
a credential remains it retries with `retryCount + 1`; otherwise it resolves
with the apology message. -/
def generateStreamResponseRun (oracle : Nat → GenAttempt)
    (pool : CredentialPool) (rc : Nat) : GSOutcome :=
  match oracle rc with
  | GenAttempt.ok t => ⟨t, [PoolEvent.attempt rc], pool⟩
  | GenAttempt.err =>
    if _h : rc < 4 then
      if (rotateApiKey pool).2 then
        let rest := generateStreamResponseRun oracle (rotateApiKey pool).1 (rc + 1)
        ⟨rest.result,
          PoolEvent.attempt rc :: PoolEvent.rotate true :: rest.trace,
          rest.pool⟩
      else
        ⟨apologyMessage, [PoolEvent.attempt rc, PoolEvent.rotate false],
          (rotateApiKey pool).1⟩
    else ⟨apologyMessage, [PoolEvent.attempt rc], pool⟩
termination_by 4 - rc
decreasing_by omega

/-- Number of network attempts in an event trace. -/
def countAttempts (t : List PoolEvent) : Nat :=
  t.countP (fun e => match e with
    | PoolEvent.attempt _ => true
    | PoolEvent.rotate _ => false)

/-- Bounded rotation-coupled retry, as an event-trace shape: a run is a
final attempt, or an attempt followed by a rotation that found no remaining
credential (and nothing after it), or — only while the retry budget is
positive — an attempt followed by a successful rotation and a further run
on a decremented budget. -/
def rotationCoupled : Nat → List PoolEvent → Bool
  | _, [PoolEvent.attempt _] => true
  | _, [PoolEvent.attempt _, PoolEvent.rotate false] => true
  | b + 1, PoolEvent.attempt _ :: PoolEvent.rotate true :: rest =>
      rotationCoupled b rest
  | _, _ => false

/-- The promise `streamSpeech` returns resolves at the end of its own
try/catch; the recursive retry on line 219 is started without `await` or
`return`, so this reports whether a retry is still in flight at the moment
the caller's `await streamSpeech(...)` resumes. -/
def ssRetryPendingAtResolve (oracle : Nat → TtsAttempt) (pool : CredentialPool)
    (rc : Nat) : Bool :=
  match oracle rc with
  | TtsAttempt.ok _ => false
  | TtsAttempt.err _ => if rc < 3 then (rotateApiKey pool).2 else false


/-! ### Trace lemmas for the retry logic -/

theorem ssRun_shape : ∀ (b rc : Nat), 3 - rc = b → ∀ (oracle : Nat → TtsAttempt) (pool : CredentialPool),
    rotationCoupled b (streamSpeechRun oracle pool rc).trace = true ∧
    countAttempts (streamSpeechRun oracle pool rc).trace ≤ b + 1 := by
  intro b
  induction b with
  | zero =>
    intro rc hb oracle pool
    rw [streamSpeechRun]
    cases ho : oracle rc with
    | ok fs => exact ⟨rfl, by simp [countAttempts]⟩
    | err fs =>
      dsimp only
      rw [dif_neg (by omega)]
      exact ⟨rfl, by simp [countAttempts]⟩
  | succ b ih =>
    intro rc hb oracle pool
    rw [streamSpeechRun]
    cases ho : oracle rc with
    | ok fs => exact ⟨rfl, by simp [countAttempts]⟩
    | err fs =>
      dsimp only
      rw [dif_pos (by omega)]
      by_cases hr : (rotateApiKey pool).2
      · rw [if_pos hr]
        have hih := ih (rc + 1) (by omega) oracle (rotateApiKey pool).1
        refine ⟨?_, ?_⟩
        · simp only [rotationCoupled]
          exact hih.1
        · simp [countAttempts, List.countP_cons]
          simp only [countAttempts] at hih
          omega
      · rw [if_neg hr]
        exact ⟨rfl, by simp [countAttempts]⟩

theorem gsRun_shape : ∀ (b rc : Nat), 4 - rc = b → ∀ (oracle : Nat → GenAttempt) (pool : CredentialPool),
    rotationCoupled b (generateStreamResponseRun oracle pool rc).trace = true ∧
    countAttempts (generateStreamResponseRun oracle pool rc).trace ≤ b + 1 := by
  intro b
  induction b with
  | zero =>
    intro rc hb oracle pool
    rw [generateStreamResponseRun]
    cases ho : oracle rc with
    | ok t => exact ⟨rfl, by simp [countAttempts]⟩
    | err =>
      dsimp only
      rw [dif_neg (by omega)]
      exact ⟨rfl, by simp [countAttempts]⟩
  | succ b ih =>
    intro rc hb oracle pool
    rw [generateStreamResponseRun]
    cases ho : oracle rc with
    | ok t => exact ⟨rfl, by simp [countAttempts]⟩
    | err =>
      dsimp only
      rw [dif_pos (by omega)]
      by_cases hr : (rotateApiKey pool).2
      · rw [if_pos hr]
        have hih := ih (rc + 1) (by omega) oracle (rotateApiKey pool).1
        refine ⟨?_, ?_⟩
        · simp only [rotationCoupled]
          exact hih.1
        · simp [countAttempts, List.countP_cons]
          simp only [countAttempts] at hih
          omega
      · rw [if_neg hr]
        exact ⟨rfl, by simp [countAttempts]⟩

theorem gsRun_all_err : ∀ (b rc : Nat), 4 - rc = b →
    ∀ (oracle : Nat → GenAttempt) (pool : CredentialPool),
    (∀ n, oracle n = GenAttempt.err) →
    (generateStreamResponseRun oracle pool rc).result = apologyMessage := by
  intro b
  induction b with
  | zero =>
    intro rc hb oracle pool hall
    rw [generateStreamResponseRun, hall rc]
    dsimp only
    rw [dif_neg (by omega)]
  | succ b ih =>
    intro rc hb oracle pool hall
    rw [generateStreamResponseRun, hall rc]
    dsimp only
    rw [dif_pos (by omega)]
    by_cases hr : (rotateApiKey pool).2
    · rw [if_pos hr]
      exact ih (rc + 1) (by omega) oracle (rotateApiKey pool).1 hall
    · rw [if_neg hr]

theorem ssRun_all_err_silent : ∀ (b rc : Nat), 3 - rc = b →
    ∀ (oracle : Nat → TtsAttempt) (pool : CredentialPool),
    (∀ n, oracle n = TtsAttempt.err []) →
    (streamSpeechRun oracle pool rc).frames = [] := by
  intro b
  induction b with
  | zero =>
    intro rc hb oracle pool hall
    rw [streamSpeechRun, hall rc]
    dsimp only
    rw [dif_neg (by omega)]
  | succ b ih =>
    intro rc hb oracle pool hall
    rw [streamSpeechRun, hall rc]
    dsimp only
    rw [dif_pos (by omega)]
    by_cases hr : (rotateApiKey pool).2
    · rw [if_pos hr]
      simp [ih (rc + 1) (by omega) oracle (rotateApiKey pool).1 hall]
    · rw [if_neg hr]

theorem gsRun_result_cases : ∀ (b rc : Nat), 4 - rc = b →
    ∀ (oracle : Nat → GenAttempt) (pool : CredentialPool),
    (generateStreamResponseRun oracle pool rc).result = apologyMessage ∨
    ∃ n t, oracle n = GenAttempt.ok t ∧
      (generateStreamResponseRun oracle pool rc).result = t := by
  intro b
  induction b with
  | zero =>
    intro rc hb oracle pool
    rw [generateStreamResponseRun]
    cases ho : oracle rc with
    | ok t => exact Or.inr ⟨rc, t, ho, rfl⟩
    | err =>
      dsimp only
      rw [dif_neg (by omega)]
      exact Or.inl rfl
  | succ b ih =>
    intro rc hb oracle pool
    rw [generateStreamResponseRun]
    cases ho : oracle rc with
    | ok t => exact Or.inr ⟨rc, t, ho, rfl⟩
    | err =>
      dsimp only
      rw [dif_pos (by omega)]
      by_cases hr : (rotateApiKey pool).2
      · rw [if_pos hr]
        exact ih (rc + 1) (by omega) oracle (rotateApiKey pool).1
      · rw [if_neg hr]
        exact Or.inl rfl

/-! ## Settled claims -/

theorem tokenize_cons_nondelim {c : Char} (cs : List Char) (h : isDelim c = false) :
    tokenize (c :: cs) =
      ((c :: cs.takeWhile (fun x => !isDelim x)) ++
        (cs.dropWhile (fun x => !isDelim x)).takeWhile isDelim) ::
        tokenize ((cs.dropWhile (fun x => !isDelim x)).dropWhile isDelim) := by
  rw [tokenize]; simp [h]

/-- C1, counterexample: segmentation is not lossless for every input.  For
the cleaned text ".a" neither alternative of the sentence-splitting regex
can match at the leading "." (both require a non-delimiter character
first), so the scanner skips it; the produced chunks are ["a"], whose
concatenation is not the input. -/
theorem segment_not_lossless_cex :
    (segment ('.' :: 'a' :: [])).flatten ≠ '.' :: 'a' :: [] := by
  have h1 : tokenize ('.' :: 'a' :: []) = [['a']] := by
    rw [tokenize_cons_delim _ (by decide)]
    exact tokenize_all_nondelim ['a'] (by decide) (by decide)
  have hs : sentencesOf ('.' :: 'a' :: []) = [['a']] := by
    unfold sentencesOf; rw [h1]
  have h2 : segment ('.' :: 'a' :: []) = [['a']] := by
    unfold segment; rw [hs]; decide
  rw [h2]; decide

/-- C1, amended: concatenating in original order all chunks produced by the
sentence-splitting regex followed by the greedy 200-character packing yields
the input text with its maximal leading run of sentence-delimiter characters
(`. ! ? ؟ :` and newline) removed; when the input consists entirely of
delimiter characters, or is empty, the concatenation is exactly the input.
In particular segmentation is lossless and order-preserving for every input
that does not start with a sentence delimiter followed later by a
non-delimiter character. -/
theorem segment_flatten_amended (T : List Char) :
    (segment T).flatten =
      if T.dropWhile isDelim = [] then T else T.dropWhile isDelim := by
  rcases segment_join T with ⟨hne, h⟩ | ⟨h0, h⟩
  · rw [if_neg (fun hd => hne ((tokenize_eq_nil_iff T).mpr hd)), h]
  · rw [if_pos ((tokenize_eq_nil_iff T).mp h0), h]

/-- C2: gapless scheduling invariant.  For every playback session (initial
timeline cursor `next`) and every sequence of successfully decoded chunks,
each with the audio-clock reading at its scheduling moment and its buffer
duration: each scheduled buffer starts at `max(clock, cursor)` and the
cursor advances to `start + duration` (first conjunct, the code of lines
186-188); no buffer starts before the clock reading at its scheduling
moment (second conjunct); and each buffer starts no earlier than the
previous buffer's start time plus that buffer's duration (third
conjunct). -/
theorem scheduleTimes_gapless (next : ℚ) (l : List (ℚ × ℚ)) :
    (∀ (now dur : ℚ) (rest : List (ℚ × ℚ)),
      scheduleTimes next ((now, dur) :: rest) =
        (max now next, dur) :: scheduleTimes (max now next + dur) rest) ∧
    List.Forall₂ (fun inp out : ℚ × ℚ => inp.1 ≤ out.1) l (scheduleTimes next l) ∧
    List.Chain' (fun p q : ℚ × ℚ => p.1 + p.2 ≤ q.1) (scheduleTimes next l) :=
  ⟨fun _ _ _ => rfl, scheduleTimes_ge_clock l next, scheduleTimes_chain l next⟩

/-- C3: cancellation.  After `stopAudio` runs: the active-handle collection
is empty; exactly the previously active handles received `.stop()`; the
timeline cursor is reset to `0`; `isSpeaking` and `isLoadingAudio` are both
false (Idle); and as long as the loop flag stays cleared (it is set again
only by a new `handleSpeak` session), the frame callback forwards no frame
to `scheduleChunk` — including frames of a network call that was mid-flight
at stop time — and the chunk loop issues no further request. -/
theorem stopAudio_cancellation (s : CompState) :
    (stopAudio s).1.sources = [] ∧
    (stopAudio s).2 = s.sources ∧
    (stopAudio s).1.nextStartTime = 0 ∧
    (stopAudio s).1.isSpeaking = false ∧
    (stopAudio s).1.isLoadingAudio = false ∧
    (∀ f : List Char, (onFrame (stopAudio s).1 f).2 = none) ∧
    (∀ (chunks : List (List Char)) (k : Nat),
      issuedRequests (fun _ => (stopAudio s).1.isSpeakingRef) chunks k = []) :=
  ⟨rfl, rfl, rfl, rfl, rfl, fun _ => rfl,
    fun chunks k => issuedRequests_of_false _ (fun _ => rfl) chunks k⟩

/-- C4, counterexample: invoking `handleSpeak` in the Loading state is not a
no-op.  Entering the loading phase (lines 79-81) sets `isSpeaking` together
with `isLoadingAudio`, so a second invocation taken from the Loading state
is dispatched to the stop branch, which moreover changes the session
state. -/
theorem handleSpeak_loading_cex :
    handleSpeakEntry (beginLoading ⟨false, false, false, [], 0⟩) = SpeakAction.stop ∧
    SpeakAction.stop ≠ SpeakAction.noop ∧
    (stopAudio (beginLoading ⟨false, false, false, [], 0⟩)).1 ≠
      beginLoading ⟨false, false, false, [], 0⟩ := by
  refine ⟨rfl, by decide, ?_⟩
  intro h
  have := congrArg CompState.isSpeaking h
  simp [stopAudio, beginLoading] at this

/-- C4, amended: whenever `handleSpeak` is invoked while `isSpeaking` is
true — which covers both the Speaking phase and the Loading phase, since
entering loading sets both flags — it performs a stop and returns
immediately without issuing any synthesis request; the no-op branch applies
exactly when `isLoadingAudio` is true while `isSpeaking` is false, a
configuration the session lifecycle itself does not produce (third
conjunct: entering loading sets `isSpeaking`). -/
theorem handleSpeak_toggle_amended (s : CompState) :
    (s.isSpeaking = true →
      handleSpeakEntry s = SpeakAction.stop ∧
      ∀ (chunks : List (List Char)) (flag : Nat → Bool),
        handleSpeakRequests s chunks flag = []) ∧
    (s.isSpeaking = false → s.isLoadingAudio = true →
      handleSpeakEntry s = SpeakAction.noop ∧
      ∀ (chunks : List (List Char)) (flag : Nat → Bool),
        handleSpeakRequests s chunks flag = []) ∧
    (beginLoading s).isSpeaking = true := by
  refine ⟨?_, ?_, rfl⟩
  · intro h
    have he : handleSpeakEntry s = SpeakAction.stop := by
      simp [handleSpeakEntry, h]
    exact ⟨he, fun chunks flag => by unfold handleSpeakRequests; rw [he]⟩
  · intro h1 h2
    have he : handleSpeakEntry s = SpeakAction.noop := by
      simp [handleSpeakEntry, h1, h2]
    exact ⟨he, fun chunks flag => by unfold handleSpeakRequests; rw [he]⟩

theorem handleSpeak_toggle_amended_w :
    ((⟨true, true, true, [], 0⟩ : CompState).isSpeaking = true ∧
      handleSpeakEntry ⟨true, true, true, [], 0⟩ = SpeakAction.stop ∧
      handleSpeakRequests ⟨true, true, true, [], 0⟩ [['a']] (fun _ => true) = []) ∧
    ((⟨false, true, false, [], 0⟩ : CompState).isSpeaking = false ∧
      (⟨false, true, false, [], 0⟩ : CompState).isLoadingAudio = true ∧
      handleSpeakEntry ⟨false, true, false, [], 0⟩ = SpeakAction.noop) := by
  refine ⟨⟨rfl, ?_, ?_⟩, rfl, rfl, ?_⟩
  · exact ((handleSpeak_toggle_amended ⟨true, true, true, [], 0⟩).1 rfl).1
  · exact ((handleSpeak_toggle_amended ⟨true, true, true, [], 0⟩).1 rfl).2
      [['a']] (fun _ => true)
  · exact ((handleSpeak_toggle_amended ⟨false, true, false, [], 0⟩).2.1 rfl rfl).1

/-- C5: bounded, rotation-coupled retry.  For every attempt-outcome oracle
and pool state, the event trace of one `streamSpeech` call satisfies the
rotation-coupled shape with retry budget 3 — every retry is immediately
preceded by a rotation that found a remaining credential, a rotation that
reports no remaining credential ends the run, and at most 3 retries happen
(at most 4 attempts) — and the trace of one `generateStreamResponse` call
satisfies the same shape with budget 4 (at most 5 attempts).  Each retry
re-runs the same full chunk from scratch (`streamSpeechRun` restarts with
the same oracle text and `retryCount + 1`). -/
theorem retry_ceiling_rotation_coupled (so : Nat → TtsAttempt)
    (sp : CredentialPool) (go : Nat → GenAttempt) (gp : CredentialPool) :
    rotationCoupled 3 (streamSpeechRun so sp 0).trace = true ∧
    countAttempts (streamSpeechRun so sp 0).trace ≤ 4 ∧
    rotationCoupled 4 (generateStreamResponseRun go gp 0).trace = true ∧
    countAttempts (generateStreamResponseRun go gp 0).trace ≤ 5 := by
  have hs := ssRun_shape 3 0 rfl so sp
  have hg := gsRun_shape 4 0 rfl go gp
  exact ⟨hs.1, hs.2, hg.1, hg.2⟩

/-- C6: pool exhaustion is never surfaced as a thrown error.  Both runs are
total functions of the attempt oracle (the whole body of each source
function is inside try/catch and the catch block never rethrows).  When
every attempt fails, `generateStreamResponse` resolves with the fixed
apology message and `streamSpeech` resolves normally having delivered
exactly the frames of the attempts it made (silence when failures deliver
nothing); and for an arbitrary oracle the `generateStreamResponse` result
is either the apology message or the text of a successful attempt — never
an error value. -/
theorem pool_exhaustion_not_thrown (go : Nat → GenAttempt) (gp : CredentialPool)
    (so : Nat → TtsAttempt) (sp : CredentialPool)
    (go2 : Nat → GenAttempt) (gp2 : CredentialPool)
    (hg : ∀ n, go n = GenAttempt.err) (hso : ∀ n, so n = TtsAttempt.err []) :
    (generateStreamResponseRun go gp 0).result = apologyMessage ∧
    (streamSpeechRun so sp 0).frames = [] ∧
    ((generateStreamResponseRun go2 gp2 0).result = apologyMessage ∨
      ∃ n t, go2 n = GenAttempt.ok t ∧
        (generateStreamResponseRun go2 gp2 0).result = t) :=
  ⟨gsRun_all_err 4 0 rfl go gp hg, ssRun_all_err_silent 3 0 rfl so sp hso,
    gsRun_result_cases 4 0 rfl go2 gp2⟩

theorem pool_exhaustion_not_thrown_w :
    (generateStreamResponseRun (fun _ => GenAttempt.err) ⟨["k1", "k2"], 0⟩ 0).result =
      apologyMessage ∧
    (streamSpeechRun (fun _ => TtsAttempt.err []) ⟨["k1", "k2"], 0⟩ 0).frames = [] ∧
    ((generateStreamResponseRun (fun _ => GenAttempt.err) ⟨["k1"], 0⟩ 0).result =
        apologyMessage ∨
      ∃ (_ : Nat) (t : String), GenAttempt.err = GenAttempt.ok t ∧
        (generateStreamResponseRun (fun _ => GenAttempt.err) ⟨["k1"], 0⟩ 0).result = t) := by
  exact pool_exhaustion_not_thrown (fun _ => GenAttempt.err) ⟨["k1", "k2"], 0⟩
    (fun _ => TtsAttempt.err []) ⟨["k1", "k2"], 0⟩
    (fun _ => GenAttempt.err) ⟨["k1"], 0⟩ (fun _ => rfl) (fun _ => rfl)

theorem packLoop_mem (maxLen : Nat) (S : List (List Char)) :
    ∀ (ss : List (List Char)) (temp : List Char), (∀ s ∈ ss, s ∈ S) →
    (temp.length ≤ maxLen ∨ temp ∈ S) →
    ∀ c ∈ packLoop maxLen ss temp, c.length ≤ maxLen ∨ c ∈ S := by
  intro ss
  induction ss with
  | nil =>
    intro temp hss htemp c hc
    rw [packLoop] at hc
    by_cases he : temp.isEmpty
    · rw [if_pos he] at hc; simp at hc
    · rw [if_neg he] at hc
      simp at hc
      subst hc
      exact htemp
  | cons s rest ih =>
    intro temp hss htemp c hc
    rw [packLoop] at hc
    by_cases hov : temp.length + s.length > maxLen
    · rw [if_pos hov] at hc
      rcases List.mem_cons.mp hc with hceq | hc2
      · subst hceq; exact htemp
      · exact ih s (fun x hx => hss x (List.mem_cons_of_mem s hx))
          (Or.inr (hss s (List.mem_cons_self s rest))) c hc2
    · rw [if_neg hov] at hc
      refine ih (temp ++ s) (fun x hx => hss x (List.mem_cons_of_mem s hx)) ?_ c hc
      left
      rw [List.length_append]
      omega

/-- C7: chunk length bound.  Every chunk the greedy packing produces either
has length at most 200 or is one of the splitter's sentences kept whole
(never split further) whose own length exceeds 200. -/
theorem segment_chunk_bound (T c : List Char) (hc : c ∈ segment T) :
    c.length ≤ 200 ∨ (c ∈ sentencesOf T ∧ 200 < c.length) := by
  unfold segment at hc
  have h := packLoop_mem 200 (sentencesOf T) (sentencesOf T) []
      (fun s hs => hs) (Or.inl (by simp)) c hc
  rcases h with h | h
  · exact Or.inl h
  · rcases Nat.lt_or_ge 200 c.length with hl | hl
    · exact Or.inr ⟨h, hl⟩
    · exact Or.inl hl

theorem segment_chunk_bound_w :
    ('a' :: 'b' :: '.' :: []) ∈ segment ('a' :: 'b' :: '.' :: []) ∧
    (('a' :: 'b' :: '.' :: []).length ≤ 200 ∨
      (('a' :: 'b' :: '.' :: []) ∈ sentencesOf ('a' :: 'b' :: '.' :: []) ∧
        200 < ('a' :: 'b' :: '.' :: []).length)) := by
  have hmem : ('a' :: 'b' :: '.' :: []) ∈ segment ('a' :: 'b' :: '.' :: []) := by
    unfold segment sentencesOf
    rw [show tokenize ('a' :: 'b' :: '.' :: []) = [['a', 'b', '.']] from by
      simp +decide [tokenize]]
    decide
  exact ⟨hmem, segment_chunk_bound _ _ hmem⟩

/-- C8: decode-failure isolation and atomicity.  A payload whose decoding
throws is caught: `scheduleChunk` returns `null` and neither the timeline
cursor nor the active-handle collection changes, so every later sequence of
chunks schedules exactly as if the bad frame had never arrived. -/
theorem scheduleChunk_decode_isolated (st : SchedState) (now : ℚ)
    (p : List Char) (hid : Nat) (h : decodePayload p = none) :
    scheduleChunk st now p hid = (st, none) ∧
    ∀ rest, runScheduler st ((now, p, hid) :: rest) = runScheduler st rest := by
  have h1 : scheduleChunk st now p hid = (st, none) := by
    unfold scheduleChunk; rw [h]
  refine ⟨h1, fun rest => ?_⟩
  rw [runScheduler, h1]

theorem scheduleChunk_decode_isolated_w :
    decodePayload ('!' :: []) = none ∧
    scheduleChunk ⟨5, [3]⟩ 2 ('!' :: []) 7 = (⟨5, [3]⟩, none) ∧
    runScheduler ⟨5, [3]⟩ [(2, '!' :: [], 7)] = runScheduler ⟨5, [3]⟩ [] := by
  have h : decodePayload ('!' :: []) = none := by decide
  have hth := scheduleChunk_decode_isolated ⟨5, [3]⟩ 2 ('!' :: []) 7 h
  exact ⟨h, hth.1, hth.2 []⟩

/-- C9: evidence for the sequential-issuance violation.  With a two-key
pool and a first TTS attempt that fails, a retry is launched but — because
line 219 calls `streamSpeech(text, onAudioChunk, retryCount + 1)` without
`await` or `return` — the promise the orchestrator awaits resolves while
that retry is still in flight (first conjunct); the retry does happen
(second conjunct: the run makes at least two attempts); and the loop, whose
flag is still set, then issues the next chunk's request (third conjunct),
so two synthesis requests are in flight at once. -/
theorem streamSpeech_unawaited_retry :
    ssRetryPendingAtResolve (fun _ => TtsAttempt.err []) ⟨["k1", "k2"], 0⟩ 0 = true ∧
    2 ≤ countAttempts
        (streamSpeechRun (fun _ => TtsAttempt.err []) ⟨["k1", "k2"], 0⟩ 0).trace ∧
    issuedRequests (fun _ => true) [['a'], ['b']] 0 = [['a'], ['b']] := by
  refine ⟨by decide, ?_, by decide⟩
  rw [show (streamSpeechRun (fun _ => TtsAttempt.err []) ⟨["k1", "k2"], 0⟩ 0).trace =
      [PoolEvent.attempt 0, PoolEvent.rotate true, PoolEvent.attempt 1,
        PoolEvent.rotate false] from by
    rw [streamSpeechRun]
    dsimp only
    rw [dif_pos (by omega), if_pos (by decide)]
    rw [streamSpeechRun]
    dsimp only
    rw [dif_pos (by omega), if_neg (by decide)]]
  decide

/-- C10: empty-first-chunk edge case.  When the splitter's first sentence is
longer than 200 characters, the packing loop pushes its still-empty
accumulator as the first chunk, so the chunk sequence begins with the empty
string, and the orchestration loop (with the session flag set) passes that
empty string to `streamSpeech` as its first request. -/
theorem segment_empty_first_chunk (T s : List Char) (ss : List (List Char))
    (hs : sentencesOf T = s :: ss) (hlen : 200 < s.length) :
    (segment T).head? = some [] ∧
    (issuedRequests (fun _ => true) (segment T) 0).head? = some [] := by
  have h1 : segment T = [] :: packLoop 200 ss s := by
    unfold segment
    rw [hs, packLoop, if_pos (by simp only [List.length_nil]; omega)]
  rw [issuedRequests_all_true, h1]
  exact ⟨rfl, rfl⟩

theorem segment_empty_first_chunk_w :
    sentencesOf (List.replicate 201 'a') = List.replicate 201 'a' :: [] ∧
    200 < (List.replicate 201 'a').length ∧
    ((segment (List.replicate 201 'a')).head? = some [] ∧
      (issuedRequests (fun _ => true) (segment (List.replicate 201 'a')) 0).head? =
        some []) := by
  have hlen : 200 < (List.replicate 201 'a').length := by
    simp only [List.length_replicate]
    omega
  have hs : sentencesOf (List.replicate 201 'a') = List.replicate 201 'a' :: [] := by
    unfold sentencesOf
    rw [tokenize_all_nondelim _
      (by simp only [ne_eq, List.replicate_eq_nil_iff]; omega)
      (fun c hc => by rw [List.eq_of_mem_replicate hc]; decide)]
  exact ⟨hs, hlen, segment_empty_first_chunk _ _ _ hs hlen⟩
end TtsPipeline
